import Mathlib

/-!
Verification development for the Grade_Genius_AI_backend quiz-grading server.

The definitions below are a shallow embedding of the TypeScript/JavaScript
sources:
  - src/src/green_page_map.ts   (page-to-student mapping)
  - src/dist/src/SBAW.js        (composite-pack page selection)
  - src/dist/src/server.js      (OCR cascade controller, text helpers, sentinels)
  - src/src/grader.ts           (solution-key post-processor)

JavaScript strings are modelled as Lean `String` (a list of `Char`); JS
numbers appearing as integral page counts, indices and marks are modelled as
`Nat`/`Int`; nullable fields are `Option`; the regex character class \s is
modelled by `Char.isWhitespace` (the inputs of interest are ASCII).
-/

/-- Model of the JS whitespace class \s restricted to the ASCII texts the
server manipulates. -/
def jsWs (c : Char) : Bool := c.isWhitespace

/-- ASCII lower-casing of one character, the effect of JS toLowerCase on the
ASCII strings used by the server. -/
def lcChar (c : Char) : Char :=
  if 'A' ≤ c ∧ c ≤ 'Z' then Char.ofNat (c.toNat + 32) else c

/-- Lower-case a character list (JS String.prototype.toLowerCase). -/
def lowerL (l : List Char) : List Char := l.map lcChar

/-- Trim leading and trailing whitespace from a character list
(JS String.prototype.trim). -/
def trimL (l : List Char) : List Char :=
  ((l.dropWhile jsWs).reverse.dropWhile jsWs).reverse

/-- Matches the regex class [a-zA-Z0-9] used by isMeaningful. -/
def isAlnum (c : Char) : Bool :=
  ('a' ≤ c ∧ c ≤ 'z') ∨ ('A' ≤ c ∧ c ≤ 'Z') ∨ ('0' ≤ c ∧ c ≤ '9')

/-- server.js isMeaningful: strip all non-alphanumeric characters and test
whether at least 30 remain. -/
def isMeaningful (s : String) : Bool :=
  30 ≤ (s.data.filter isAlnum).length

/-- Characters kept by the range [\x20-\x7E\n] of stripGarbage and
cleanExtractedText. -/
def keepPrintable (c : Char) : Bool :=
  (0x20 ≤ c.toNat ∧ c.toNat ≤ 0x7E) ∨ c = '\n'

/-- Emit one completed whitespace run for the two-or-more collapse: a run of
length at least 2 becomes one space, a single whitespace character is kept as
it is. The run is accumulated in reverse. -/
def flushWsRun (run : List Char) : List Char :=
  if 2 ≤ run.length then [' '] else run.reverse

/-- State machine of the regex replace \s with two or more repetitions by a
single space; the first argument holds the whitespace run read so far. -/
def collapseWs2Aux : List Char → List Char → List Char
  | run, [] => flushWsRun run
  | run, c :: cs =>
    if jsWs c then collapseWs2Aux (c :: run) cs
    else flushWsRun run ++ c :: collapseWs2Aux [] cs

/-- Effect of the regex replace \s with two or more repetitions by a single
space: each maximal whitespace run of length at least 2 becomes one space,
isolated whitespace characters are kept as they are. -/
def collapseWs2 (l : List Char) : List Char := collapseWs2Aux [] l

/-- True exactly on the newline character. -/
def isNl (c : Char) : Bool := c = '\n'

/-- Emit one completed newline run for the three-or-more collapse: a run of
length at least 3 becomes two newlines, shorter runs are kept. -/
def flushNlRun (k : Nat) : List Char :=
  if 3 ≤ k then ['\n', '\n'] else List.replicate k '\n'

/-- State machine of the regex replace of three or more newlines by two
newlines; the first argument counts the newline run read so far. -/
def collapseNl3Aux : Nat → List Char → List Char
  | k, [] => flushNlRun k
  | k, c :: cs =>
    if isNl c then collapseNl3Aux (k + 1) cs
    else flushNlRun k ++ c :: collapseNl3Aux 0 cs

/-- Effect of the regex replace of three or more newlines by two newlines. -/
def collapseNl3 (l : List Char) : List Char := collapseNl3Aux 0 l

/-- server.js cleanExtractedText: strip characters outside [\x20-\x7E\n],
collapse whitespace runs of length at least 2 to one space, collapse newline
runs of length at least 3 to two newlines, trim. -/
def cleanExtractedText (s : String) : String :=
  String.mk (trimL (collapseNl3 (collapseWs2 (s.data.filter keepPrintable))))

/-- server.js stripGarbage: strip characters outside [\x20-\x7E\n], collapse
whitespace runs of length at least 2 to one space, trim. -/
def stripGarbage (s : String) : String :=
  String.mk (trimL (collapseWs2 (s.data.filter keepPrintable)))

-- ============================================================
-- server.js slugify and the OCR sentinel identity strings
-- ============================================================

/-- State machine of the regex replace of every whitespace run by one
underscore; the flag records whether the previous character was whitespace. -/
def wsToUnderscoreAux : Bool → List Char → List Char
  | _, [] => []
  | inRun, c :: cs =>
    if jsWs c then
      (if inRun then [] else ['_']) ++ wsToUnderscoreAux true cs
    else c :: wsToUnderscoreAux false cs

/-- Effect of the regex replace of every whitespace run by one underscore. -/
def wsToUnderscore (l : List Char) : List Char := wsToUnderscoreAux false l

/-- Characters kept by slugify, the class [a-z0-9_-]. -/
def slugChar (c : Char) : Bool :=
  ('a' ≤ c ∧ c ≤ 'z') ∨ ('0' ≤ c ∧ c ≤ '9') ∨ c = '_' ∨ c = '-'

/-- server.js slugify: lower-case, trim, replace whitespace runs by
underscores, strip characters outside [a-z0-9_-]. -/
def slugify (s : String) : String :=
  String.mk ((wsToUnderscore (trimL (lowerL s.data))).filter slugChar)

/-- Effect of the regex replace of leading and trailing underscore runs by
the empty string, applied by the sentinel construction. -/
def stripEdgeUnderscores (l : List Char) : List Char :=
  ((l.dropWhile (· = '_')).reverse.dropWhile (· = '_')).reverse

/-- The combined slug suffix appended after the sentinel literal: the title
slug, then an underscore and the section slug when the latter is nonempty. -/
def sentinelSuffix (title sec : Option String) : List Char :=
  (slugify (title.getD "")).data ++
    (if (slugify (sec.getD "")).data ≠ [] then
      '_' :: (slugify (sec.getD "")).data
    else [])

/-- server.js ocrWithOpenAIOCR solutionName: the literal solution_paper_
followed by the slug suffix, with leading and trailing underscores
stripped. -/
def solutionName (title sec : Option String) : String :=
  String.mk (stripEdgeUnderscores ("solution_paper_".data ++ sentinelSuffix title sec))

/-- server.js ocrWithOpenAIOCR unknownName: the literal unknown_ followed by
the slug suffix, with leading and trailing underscores stripped. -/
def unknownName (title sec : Option String) : String :=
  String.mk (stripEdgeUnderscores ("unknown_".data ++ sentinelSuffix title sec))

/-- SBAW.js pickSolutionIndex name test: lower-case the student name and test
the anchored prefixes unknown_ and solution_paper_. -/
def sbawNameMatches (name : Option String) : Bool :=
  let n := lowerL (name.getD "").data
  "unknown_".data.isPrefixOf n || "solution_paper_".data.isPrefixOf n

/-- The exact solution sentinel form asserted by the specification,
solution_paper_ followed by the title slug and an optional underscore and
section slug, with no trailing strip. Stated from the claim for comparison
with the source definition. -/
def claimSolutionForm (title sec : Option String) : String :=
  "solution_paper_" ++ slugify (title.getD "") ++
    (if slugify (sec.getD "") ≠ "" then "_" ++ slugify (sec.getD "") else "")

/-- The exact unknown sentinel form asserted by the specification. Stated
from the claim for comparison with the source definition. -/
def claimUnknownForm (title sec : Option String) : String :=
  "unknown_" ++ slugify (title.getD "") ++
    (if slugify (sec.getD "") ≠ "" then "_" ++ slugify (sec.getD "") else "")

-- ============================================================
-- green_page_map.ts
-- ============================================================

/-- green_page_map.ts normalizeIndices: keep the integral candidates inside
[0, pageCount), deduplicate, sort ascending. Candidate indices arriving from
JSON are modelled as integers. -/
def normalizeIndices (indices : List Int) (pageCount : Nat) : List Nat :=
  List.insertionSort (· ≤ ·)
    (((indices.filter (fun v => 0 ≤ v ∧ v < (pageCount : Int))).map Int.toNat).dedup)

/-- Loop body of green_page_map.ts evenSplit: hand out base pages per student
plus one extra while remainder lasts, walking a cursor left to right. -/
def evenSplitGo (base : Nat) : Nat → Nat → Nat → List (List Nat)
  | _, _, 0 => []
  | cursor, remainder, Nat.succ k =>
    let tk := base + (if remainder > 0 then 1 else 0)
    List.range' cursor tk :: evenSplitGo base (cursor + tk) (remainder - 1) k

/-- green_page_map.ts evenSplit: split pageCount pages as evenly as possible
across n students; degenerate inputs give n empty lists. -/
def evenSplit (pageCount n : Nat) : List (List Nat) :=
  if n = 0 ∨ pageCount = 0 then List.replicate n []
  else evenSplitGo (pageCount / n) 0 (pageCount - pageCount / n * n) n

/-- Substring containment on character lists (JS String.prototype.includes). -/
def containsSub (hay pat : List Char) : Bool :=
  hay.tails.any (fun t => pat.isPrefixOf t)

/-- green_page_map.ts header test: the lower-cased page text contains both
name: and roll:. -/
def pageHasHeader (t : String) : Bool :=
  containsSub (lowerL t.data) "name:".data && containsSub (lowerL t.data) "roll:".data

/-- Range construction of green_page_map.ts inferByPageTexts: each block runs
from its start to the next start, the last one to the end of the document. -/
def buildRanges (total : Nat) : List Nat → List (List Nat)
  | [] => []
  | s :: rest =>
    List.range' s ((match rest.head? with | some e => e | none => total) - s)
      :: buildRanges total rest

/-- green_page_map.ts inferByPageTexts: mark pages whose text contains both
name: and roll: as block starts and build contiguous ranges between them. -/
def inferByPageTexts (page_texts : Option (List String)) (expectedStudents : Nat) :
    List (List Nat) :=
  match page_texts with
  | none => []
  | some ts =>
    if ts.length = 0 ∨ expectedStudents = 0 then []
    else
      let starts := (List.range ts.length).filter (fun i => pageHasHeader (ts.getD i ""))
      if starts = [] then [] else buildRanges ts.length starts

/-- Input student record of green_page_map.ts mapPagesToStudents; only the
optional precomputed page_indices field influences the produced page lists. -/
structure PMStudent where
  page_indices : Option (List Int)
deriving DecidableEq

/-- Cursor walk of the spillover branch of mapPagesToStudents: student j of
the remainder takes as many uncovered pages as its even-split slot has. -/
def chunkBySizes (pages : List Nat) : List (List Nat) → List (List Nat)
  | [] => []
  | sz :: rest => pages.take sz.length :: chunkBySizes (pages.drop sz.length) rest

/-- green_page_map.ts mapPagesToStudents, returning the produced page-index
list of each student in order. Priority: explicit indices when every student
has some, then header-based inference with even-split spillover for uncovered
pages, then the even-split fallback. -/
def mapPagesToStudents (pageCount : Nat) (students : List PMStudent)
    (page_texts : Option (List String)) : List (List Nat) :=
  let totalPages := pageCount
  let n := students.length
  if n = 0 then []
  else
    let allProvided := students.all (fun s => 0 < (s.page_indices.getD []).length)
    if allProvided then
      students.map (fun s => normalizeIndices (s.page_indices.getD []) totalPages)
    else
      let inferredBlocks := inferByPageTexts page_texts n
      if 1 ≤ inferredBlocks.length then
        if inferredBlocks.length = n then
          inferredBlocks.map (fun blk =>
            normalizeIndices (blk.map (fun p => (p : Int))) totalPages)
        else
          let m := min n inferredBlocks.length
          let out₁ := (inferredBlocks.take m).map (fun blk =>
            normalizeIndices (blk.map (fun p => (p : Int))) totalPages)
          if m < n then
            let remaining := n - m
            let remainingPages := (List.range totalPages).filter
              (fun p => ! inferredBlocks.any (fun blk => blk.contains p))
            let split := evenSplit remainingPages.length remaining
            out₁ ++ (chunkBySizes remainingPages split).map (fun c =>
              normalizeIndices (c.map (fun p => (p : Int))) totalPages)
          else out₁
      else
        (List.range n).map (fun i =>
          normalizeIndices (((evenSplit totalPages n).getD i []).map
            (fun p => (p : Int))) totalPages)

-- ============================================================
-- SBAW.js — composite-pack page selection
-- ============================================================

/-- Student record consumed by the SBAW selection, restricted to the fields
the selection reads: the name (for sentinel detection) and the total score
(for ranking). -/
structure SStudent where
  student_name : Option String
  total_score : Option Int
deriving DecidableEq

/-- One entry of the mapped array of selectFromFormattedAndBuild: the student
index, the first page of the student's block, and the student record. -/
structure MappedEntry where
  index : Nat
  pageIndex : Nat
  student : SStudent
deriving DecidableEq

/-- SBAW.js pickSolutionIndex: the page of the first entry whose student name
matches the unknown_ or solution_paper_ prefix, else the first entry's page,
else 0. -/
def pickSolutionIndex (arr : List MappedEntry) : Nat :=
  match arr.find? (fun m => sbawNameMatches m.student.student_name) with
  | some cand => cand.pageIndex
  | none => ((arr.head?).map (fun m => m.pageIndex)).getD 0

/-- Descending ranking key of the SBAW sort comparator: the total score with
a missing score read as 0. -/
def scoreKey (m : MappedEntry) : Int := m.student.total_score.getD 0

/-- Result of the pure selection core of selectFromFormattedAndBuild. -/
structure SelectResult where
  mapped : List MappedEntry
  solutionIdx : Option Nat
  bestIdx : Nat
  avgIdx : Nat
  lowIdx : Nat

/-- Pure core of SBAW.js selectFromFormattedAndBuild, after the quiz row and
PDF bytes have been fetched: build the block-start mapping, optionally pick
and remove the solution entry, rank the pool descending by total score with
a stable sort, and pick Best, Average and Low. -/
def selectCore (pageCount : Nat) (graded : List SStudent)
    (noOfPages : Option Int) (readFirstPaperIsSolutionCol : Option Bool) :
    SelectResult :=
  let pagesPerStudent := (max 1 (noOfPages.getD 1)).toNat
  let maxStudentsByPages := pageCount / pagesPerStudent
  let useStudents := min graded.length maxStudentsByPages
  let mapped := (List.range useStudents).map (fun i =>
    { index := i, pageIndex := i * pagesPerStudent,
      student := graded.getD i { student_name := none, total_score := none } })
  let readFirstPaperIsSolution := readFirstPaperIsSolutionCol ≠ some false
  let solutionIdx : Option Nat :=
    if readFirstPaperIsSolution then some (pickSolutionIndex mapped) else none
  let pool :=
    if readFirstPaperIsSolution then
      mapped.filter (fun m => ¬ (some m.pageIndex = solutionIdx))
    else mapped
  let sorted := List.insertionSort (fun a b => scoreKey b ≤ scoreKey a) pool
  let fallback := ((pool.head?).map (fun m => m.pageIndex)).getD
    (((mapped.head?).map (fun m => m.pageIndex)).getD 0)
  let bestIdx := ((sorted.head?).map (fun m => m.pageIndex)).getD fallback
  let lowIdx := ((sorted.getLast?).map (fun m => m.pageIndex)).getD fallback
  let avgIdx := (((sorted.get? (sorted.length / 2))).map (fun m => m.pageIndex)).getD fallback
  { mapped := mapped, solutionIdx := solutionIdx,
    bestIdx := bestIdx, avgIdx := avgIdx, lowIdx := lowIdx }

/-- Role/page order constructed by SBAW.js buildSBABSingle: Solution first
when present, then Best, Avg, Low. -/
def buildOrder (r : SelectResult) : List (String × Nat) :=
  (match r.solutionIdx with
   | some s => [("Solution", s)]
   | none => []) ++
  [("Best", r.bestIdx), ("Avg", r.avgIdx), ("Low", r.lowIdx)]

-- ============================================================
-- server.js — OCR cascade controller and naming context
-- ============================================================

/-- Outcome of one underlying OCR adapter call: extracted text, or an
internal error swallowed at the adapter boundary. -/
def AdapterResult : Type := Except String String

/-- Raw outcomes of the six adapters reachable from the process-quiz handler,
in the order of the auto cascade. -/
structure OcrAdapters where
  pdfParse : Except String String
  visionPdf : Except String String
  openaiOcr : Except String String
  geminiOcr : Except String String
  images : Except String String
  tesseract : Except String String

/-- The try-wrapper around each adapter in the process-quiz handler: any
adapter error is caught, logged and turned into the empty string. -/
def runAdapter : Except String String → String
  | Except.ok t => t
  | Except.error _ => ""

/-- The auto engine chain of the process-quiz handler: pdf-parse, then Vision
native PDF, then OpenAI OCR, then Gemini OCR, then Vision image variants,
then Tesseract; each later adapter runs only when everything earlier was not
meaningful. The second component counts how many adapters were invoked. -/
def autoChain (a : OcrAdapters) : String × Nat :=
  let t0 := runAdapter a.pdfParse
  if isMeaningful t0 then (t0, 1) else
  let t1 := runAdapter a.visionPdf
  if isMeaningful t1 then (t1, 2) else
  let t2 := runAdapter a.openaiOcr
  if isMeaningful t2 then (t2, 3) else
  let t3 := runAdapter a.geminiOcr
  if isMeaningful t3 then (t3, 4) else
  let t4 := runAdapter a.images
  if isMeaningful t4 then (t4, 5) else
  (runAdapter a.tesseract, 6)

/-- The six wrapped adapter results in auto-cascade order. -/
def adapterList (a : OcrAdapters) : List String :=
  [runAdapter a.pdfParse, runAdapter a.visionPdf, runAdapter a.openaiOcr,
   runAdapter a.geminiOcr, runAdapter a.images, runAdapter a.tesseract]

/-- Engine selection of the process-quiz handler: the named engines run their
fixed short chains, every other engine value runs the auto cascade. -/
def engineExtract (engine : String) (a : OcrAdapters) : String :=
  if engine = "vision-pdf" then
    let t := runAdapter a.visionPdf
    let t := if ¬ isMeaningful t then runAdapter a.images else t
    if ¬ isMeaningful t then runAdapter a.tesseract else t
  else if engine = "images" then
    let t := runAdapter a.images
    if ¬ isMeaningful t then runAdapter a.tesseract else t
  else if engine = "tesseract" then
    runAdapter a.tesseract
  else if engine = "openai-ocr" then
    let t := runAdapter a.openaiOcr
    if ¬ isMeaningful t then runAdapter a.tesseract else t
  else if engine = "gemini-ocr" then
    let t := runAdapter a.geminiOcr
    if ¬ isMeaningful t then runAdapter a.tesseract else t
  else
    (autoChain a).1

/-- The process-wide OCR naming context CURRENT_OCR_CTX of server.js. The
quiz section column is modelled by the field sec. -/
structure OcrCtx where
  firstIsSolution : Bool
  quizTitle : Option String
  sec : Option String
  pagesPerStudent : Nat
deriving DecidableEq

/-- The neutral default the handler assigns back to CURRENT_OCR_CTX. -/
def neutralCtx : OcrCtx :=
  { firstIsSolution := false, quizTitle := none, sec := none, pagesPerStudent := 1 }

/-- Quiz row columns read by the process-quiz handler. -/
structure QuizRow where
  no_of_pages : Option Int
  read_first_paper_is_solution : Option Bool
  title : Option String
  sec : Option String

/-- HTTP outcome of one process-quiz execution. -/
inductive POutcome where
  | notFound
  | errorResp (msg : String)
  | ok (text : String)
deriving DecidableEq

/-- Per-execution environment of the process-quiz handler: the quiz lookup
result and the success of each fallible step (download, temp-file write,
database update, temp-file unlink), plus the engine and adapter outcomes. -/
structure ProcessInput where
  quiz : Option QuizRow
  downloadOk : Bool
  writeOk : Bool
  engine : String
  adapters : OcrAdapters
  updateOk : Bool
  unlinkOk : Bool

/-- The process-quiz handler of server.js as a state machine over
CURRENT_OCR_CTX. The returned triple is the final context, the context value
written by the populate assignment when it executed, and the HTTP outcome;
every fallible step that fails raises to the catch block, which returns an
error response without touching the context. -/
def processQuiz (ctx0 : OcrCtx) (inp : ProcessInput) :
    OcrCtx × Option OcrCtx × POutcome :=
  match inp.quiz with
  | none => (ctx0, none, POutcome.notFound)
  | some q =>
    if ¬ inp.downloadOk then (ctx0, none, POutcome.errorResp "Failed to download quiz PDF")
    else if ¬ inp.writeOk then (ctx0, none, POutcome.errorResp "temp write failed")
    else
      let pagesPerStudent := (max 1 (q.no_of_pages.getD 1)).toNat
      let ctx1 : OcrCtx :=
        { firstIsSolution := q.read_first_paper_is_solution ≠ some false,
          quizTitle := q.title, sec := q.sec, pagesPerStudent := pagesPerStudent }
      let extracted := engineExtract inp.engine inp.adapters
      let ctx2 := { firstIsSolution := false, quizTitle := none, sec := none,
                    pagesPerStudent := 1 : OcrCtx }
      let cleaned := cleanExtractedText extracted
      if ¬ inp.updateOk then (ctx2, some ctx1, POutcome.errorResp "update failed")
      else if ¬ inp.unlinkOk then (ctx2, some ctx1, POutcome.errorResp "unlink failed")
      else (ctx2, some ctx1, POutcome.ok cleaned)

-- ============================================================
-- grader.ts — solution-key post-processor
-- ============================================================

/-- Subpart of a graded question. -/
structure GSubpart where
  label : Option String
  marks : Option Int
  max_marks : Option Int
  remarks : Option String
deriving DecidableEq

/-- Graded question record. -/
structure GQuestion where
  number : Option Int
  marks : Option Int
  max_marks : Option Int
  topic : Option String
  subparts : Option (List GSubpart)
  remarks : Option String
deriving DecidableEq

/-- Graded student record. -/
structure GStudent where
  student_name : Option String
  roll_number : Option String
  total_score : Option Int
  max_score : Option Int
  remarks : Option String
  questions : Option (List GQuestion)
deriving DecidableEq

/-- The remark-append step of forceSolutionFullMarks: append the note after
a separator when a nonempty remark exists, else set the note. -/
def appendNote (r : Option String) (note : String) : String :=
  match r with
  | some s => if 0 < s.length then s ++ " | " ++ note else note
  | none => note

/-- JS expression Number(x ?? 0) || 0 on an optional integral field. -/
def numOr0 (x : Option Int) : Int := x.getD 0

/-- Per-question mutation of grader.ts forceSolutionFullMarks: subparts get
their max marks and a note; a question with nonempty subparts gets the sum of
its subpart maxima as marks, a question without gets its own max marks; every
question gets the note. -/
def transformQ (q : GQuestion) : GQuestion :=
  let qMax := numOr0 q.max_marks
  match q.subparts with
  | some sps =>
    if 0 < sps.length then
      let sps1 := sps.map (fun sp =>
        { sp with marks := some (numOr0 sp.max_marks),
                  remarks := some (appendNote sp.remarks "Solution key (full marks)") })
      let subSum := (sps.map (fun sp => numOr0 sp.max_marks)).sum
      { q with subparts := some sps1, marks := some subSum,
               remarks := some (appendNote q.remarks "Solution key (full marks)") }
    else
      { q with marks := some qMax,
               remarks := some (appendNote q.remarks "Solution key (full marks)") }
  | none =>
    { q with marks := some qMax,
             remarks := some (appendNote q.remarks "Solution key (full marks)") }

/-- Achievable maximum recomputation of forceSolutionFullMarks: subpart
maxima when subparts are present and nonempty, else the question maximum. -/
def computedMaxQ (q : GQuestion) : Int :=
  match q.subparts with
  | some sps =>
    if 0 < sps.length then (sps.map (fun sp => numOr0 sp.max_marks)).sum
    else numOr0 q.max_marks
  | none => numOr0 q.max_marks

/-- JS expression (first.student_name || "Unknown Student").toString().trim(). -/
def solutionBaseName (name : Option String) : String :=
  String.mk (trimL (match name with
    | some s => if s = "" then "Unknown Student" else s
    | none => "Unknown Student").data)

/-- grader.ts forceSolutionFullMarks, as a pure record update. -/
def forceSolutionFullMarks (first : GStudent) : GStudent :=
  let name := solutionBaseName first.student_name
  let qs := first.questions.getD []
  let qs1 := qs.map transformQ
  let sumMax := (qs1.map (fun q => numOr0 q.marks)).sum
  let computedMax := (qs.map computedMaxQ).sum
  { first with
    student_name := some (String.mk (trimL (name ++ " " ++ name).data)),
    questions := match first.questions with
      | some _ => some qs1
      | none => first.questions,
    total_score := some sumMax,
    max_score := some (match first.max_score with
      | some m => if m = 0 then sumMax else m
      | none => if computedMax = 0 then sumMax else computedMax),
    remarks := some (appendNote first.remarks "Solution paper (awarded full marks).") }

/-- Call site of forceSolutionFullMarks in the analyze-quiz handler: with the
solution-key option on and a nonempty parsed array, rewrite the first record
in place. -/
def applySolutionKey (useKey : Bool) (parsed : Option (List GStudent)) :
    Option (List GStudent) :=
  if useKey then
    match parsed with
    | some (f :: rest) => some (forceSolutionFullMarks f :: rest)
    | other => other
  else parsed

-- ============================================================
-- Concrete example records used by counterexamples and witnesses
-- ============================================================

/-- Scenario A roster: three graded students with scores 40, 90, 10. -/
def scenarioAStudents : List SStudent :=
  [{ student_name := some "s1", total_score := some 40 },
   { student_name := some "s2", total_score := some 90 },
   { student_name := some "s3", total_score := some 10 }]

/-- A neutral student record used as a placeholder roster entry. -/
def blankSStudent : SStudent := { student_name := none, total_score := none }

/-- Sample graded record with one question worth 10 whose single subpart is
worth 3; exercises the solution-key post-processor. -/
def exSolutionStudent : GStudent :=
  { student_name := some "Sol", roll_number := none, total_score := none,
    max_score := none, remarks := none,
    questions := some [{ number := some 1, marks := some 2, max_marks := some 10,
                         topic := none,
                         subparts := some [{ label := some "a", marks := some 1,
                                             max_marks := some 3, remarks := none }],
                         remarks := none }] }

/-- Adapter outcomes in which only the third adapter (OpenAI OCR) yields a
meaningful text. -/
def exCascadeAdapters : OcrAdapters :=
  { pdfParse := Except.ok ""
  , visionPdf := Except.error "net"
  , openaiOcr := Except.ok (String.mk (List.replicate 30 'a'))
  , geminiOcr := Except.ok "later"
  , images := Except.ok ""
  , tesseract := Except.ok "t" }

/-- A process-quiz environment whose populate step runs and whose database
update then fails. -/
def exProcessInput : ProcessInput :=
  { quiz := some { no_of_pages := some 2
                 , read_first_paper_is_solution := some true
                 , title := some "Quiz 1"
                 , sec := some "A" }
  , downloadOk := true
  , writeOk := true
  , engine := "tesseract"
  , adapters := { pdfParse := Except.ok ""
                , visionPdf := Except.ok ""
                , openaiOcr := Except.ok ""
                , geminiOcr := Except.ok ""
                , images := Except.ok ""
                , tesseract := Except.ok "hello" }
  , updateOk := false
  , unlinkOk := true }

/-- A non-neutral naming context left over from a hypothetical earlier run. -/
def exDirtyCtx : OcrCtx :=
  { firstIsSolution := true, quizTitle := some "t", sec := none, pagesPerStudent := 3 }

-- ============================================================
-- Helper lemmas
-- ============================================================

private theorem evenSplitGo_length (b : Nat) :
    ∀ (n c r : Nat), (evenSplitGo b c r n).length = n := by
  intro n
  induction n with
  | zero => intro c r; rfl
  | succ k ih => intro c r; simp [evenSplitGo, ih]

private theorem evenSplitGo_map_length (b : Nat) :
    ∀ (n c r : Nat), (evenSplitGo b c r n).map List.length =
      (List.range n).map (fun i => b + if i < r then 1 else 0) := by
  intro n
  induction n with
  | zero => intro c r; rfl
  | succ k ih =>
    intro c r
    rw [List.range_succ_eq_map]
    simp only [evenSplitGo, List.map_cons, List.map_map, List.length_range', ih]
    rw [List.cons_eq_cons]
    constructor
    · split <;> omega
    · apply List.map_congr_left
      intro i _
      simp only [Function.comp_apply, Nat.succ_eq_add_one]
      split <;> split <;> omega

private theorem evenSplitGo_flatten (b : Nat) :
    ∀ (n c r : Nat), (evenSplitGo b c r n).flatten = List.range' c (n * b + min r n) := by
  intro n
  induction n with
  | zero => intro c r; simp [evenSplitGo]
  | succ k ih =>
    intro c r
    simp only [evenSplitGo, List.flatten_cons, ih]
    have h1 : ∀ m, List.range' c m ++ List.range' (c + m) (k * b + min (r - 1) k) =
        List.range' c (k * b + min (r - 1) k + m) := by
      intro m
      simp
    rw [h1]
    congr 1
    have hsm : (k + 1) * b = k * b + b := by ring
    split <;> omega

private theorem getD_map_length (L : List (List Nat)) :
    ∀ i : Nat, (L.getD i []).length = (L.map List.length).getD i 0 := by
  induction L with
  | nil => intro i; rfl
  | cons a L ih =>
    intro i
    cases i with
    | zero => rfl
    | succ j => simpa using ih j

private theorem getD_map_range (f : Nat → Nat) (n i : Nat) (h : i < n) :
    ((List.range n).map f).getD i 0 = f i := by
  have hlen : i < ((List.range n).map f).length := by simpa using h
  rw [List.getD_eq_getElem _ _ hlen]
  simp

private theorem sum_base_ite (b r : Nat) :
    ∀ n, ((List.range n).map (fun i => b + if i < r then 1 else 0)).sum
      = n * b + min r n := by
  intro n
  induction n with
  | zero => simp
  | succ k ih =>
    rw [List.range_succ]
    simp only [List.map_append, List.sum_append, ih, List.map_cons, List.map_nil,
      List.sum_cons, List.sum_nil]
    have hsm : (k + 1) * b = k * b + b := by ring
    split <;> omega


-- ============================================================
-- Claim theorems
-- ============================================================

/-- C7: even-split fallback fairness. For every pageCount and every n > 0,
evenSplit produces exactly n lists, their total length is pageCount, their
concatenation in student order is exactly the page range 0, 1, ...,
pageCount - 1, the first pageCount - n * (pageCount / n) students receive
base + 1 pages while the rest receive base pages, and any two list sizes
differ by at most one. -/
theorem evenSplit_fairness (pageCount n : Nat) (hn : 0 < n) :
    (evenSplit pageCount n).length = n ∧
    ((evenSplit pageCount n).map List.length).sum = pageCount ∧
    (evenSplit pageCount n).flatten = List.range pageCount ∧
    (∀ i, i < n → ((evenSplit pageCount n).getD i []).length =
      pageCount / n + (if i < pageCount - pageCount / n * n then 1 else 0)) ∧
    (∀ l₁ ∈ evenSplit pageCount n, ∀ l₂ ∈ evenSplit pageCount n,
      l₁.length ≤ l₂.length + 1) := by
  by_cases hpc : pageCount = 0
  · subst hpc
    have hES0 : evenSplit 0 n = List.replicate n [] := by simp [evenSplit]
    rw [hES0]
    refine ⟨by simp, by simp, by simp, ?_, ?_⟩
    · intro i hi
      have hlen : i < (List.replicate n ([] : List Nat)).length := by simpa using hi
      rw [List.getD_eq_getElem _ _ hlen]
      simp
    · intro l₁ h₁ l₂ h₂
      rw [List.eq_of_mem_replicate h₁, List.eq_of_mem_replicate h₂]
      simp
  · have hguard : ¬ (n = 0 ∨ pageCount = 0) := by omega
    have hdm := Nat.div_add_mod pageCount n
    have hcomm : pageCount / n * n = n * (pageCount / n) := Nat.mul_comm _ _
    have hrem : pageCount - pageCount / n * n = pageCount % n := by omega
    have hrlt : pageCount % n < n := Nat.mod_lt _ hn
    have hES : evenSplit pageCount n =
        evenSplitGo (pageCount / n) 0 (pageCount - pageCount / n * n) n := by
      simp [evenSplit, hguard]
    have hmin : min (pageCount - pageCount / n * n) n = pageCount - pageCount / n * n := by
      omega
    refine ⟨?_, ?_, ?_, ?_, ?_⟩
    · rw [hES, evenSplitGo_length]
    · rw [hES, evenSplitGo_map_length, sum_base_ite]
      omega
    · rw [hES, evenSplitGo_flatten, hmin, List.range_eq_range']
      congr 1
      omega
    · intro i hi
      rw [hES, getD_map_length, evenSplitGo_map_length, getD_map_range _ _ _ hi]
    · intro l₁ h₁ l₂ h₂
      rw [hES] at h₁ h₂
      have hb : ∀ l ∈ evenSplitGo (pageCount / n) 0 (pageCount - pageCount / n * n) n,
          pageCount / n ≤ l.length ∧ l.length ≤ pageCount / n + 1 := by
        intro l hl
        have hmem : l.length ∈ (evenSplitGo (pageCount / n) 0
            (pageCount - pageCount / n * n) n).map List.length :=
          List.mem_map_of_mem _ hl
        rw [evenSplitGo_map_length] at hmem
        obtain ⟨i, _, hi⟩ := List.mem_map.mp hmem
        split at hi <;> omega
      have hb₁ := hb l₁ h₁
      have hb₂ := hb l₂ h₂
      omega

/-- C7 witness: the spec example pageCount = 7, n = 3 gives three blocks
that tile the page range. -/
theorem evenSplit_fairness_witness :
    (evenSplit 7 3).flatten = List.range 7 :=
  (evenSplit_fairness 7 3 (by decide)).2.2.1

/-- C6: primary block-mapping determinism. For every page count, every
graded-results array and every pages-per-student value p at least 1, the
mapped array of the selection core has exactly
min (number of graded students) (pageCount / p) entries, its representative
page indices are 0, p, 2 * p, ... in order, and entry i starts at page
i * p. -/
theorem selectCore_primary_mapping (pageCount : Nat) (graded : List SStudent)
    (p : Int) (flag : Option Bool) (hp : 1 ≤ p) :
    ((selectCore pageCount graded (some p) flag).mapped).length =
      min graded.length (pageCount / p.toNat) ∧
    ((selectCore pageCount graded (some p) flag).mapped).map (fun m => m.pageIndex) =
      (List.range (min graded.length (pageCount / p.toNat))).map (fun i => i * p.toNat) ∧
    (∀ i, (h : i < ((selectCore pageCount graded (some p) flag).mapped).length) →
      (((selectCore pageCount graded (some p) flag).mapped).get ⟨i, h⟩).pageIndex
        = i * p.toNat) := by
  have hmax : max 1 p = p := max_eq_right hp
  refine ⟨?_, ?_, ?_⟩
  · simp [selectCore, hmax]
  · simp [selectCore, hmax]
  · intro i h
    simp [selectCore, hmax, List.get_eq_getElem]

/-- C6 witness: the spec example pageCount = 10, p = 2 with a roster of five
students yields representative pages 0, 2, 4, 6, 8. -/
theorem selectCore_primary_mapping_witness :
    ((selectCore 10 (List.replicate 5 blankSStudent) (some 2) none).mapped).map
      (fun m => m.pageIndex) = [0, 2, 4, 6, 8] := by
  rw [(selectCore_primary_mapping 10 (List.replicate 5 blankSStudent) 2 none
    (by decide)).2.1]
  decide

/-- C5: Scenario A selection. With three graded students scoring 40, 90, 10,
one page per student, three pages and the solution flag off, the selection
ranks the whole pool descending by score and picks Best = page 1,
Average = page 0 (the order statistic at floor(3 / 2) of the ranked pool),
Low = page 2, and the emitted role order carries no Solution entry. -/
theorem scenarioA_selection :
    (selectCore 3 scenarioAStudents (some 1) (some false)).solutionIdx = none ∧
    (selectCore 3 scenarioAStudents (some 1) (some false)).bestIdx = 1 ∧
    (selectCore 3 scenarioAStudents (some 1) (some false)).avgIdx = 0 ∧
    (selectCore 3 scenarioAStudents (some 1) (some false)).lowIdx = 2 ∧
    buildOrder (selectCore 3 scenarioAStudents (some 1) (some false)) =
      [("Best", 1), ("Avg", 0), ("Low", 2)] := by
  decide

/-- C4: auto cascade order and short-circuit. For all adapter outcomes, the
auto chain tries pdf-parse, Vision native PDF, OpenAI OCR, Gemini OCR, Vision
image variants and Tesseract in that order; adapter j is invoked exactly when
every earlier adapter produced a non-meaningful result, and the returned text
is the first meaningful result, or the last adapter's possibly empty result
when all are exhausted. -/
theorem autoChain_spec (a : OcrAdapters) :
    (autoChain a).1 =
      ((adapterList a).find? (fun s => isMeaningful s)).getD (runAdapter a.tesseract) ∧
    (∀ j, j < 6 → ((j < (autoChain a).2) ↔
      ((adapterList a).take j).all (fun s => ! isMeaningful s) = true)) := by
  by_cases h0 : isMeaningful (runAdapter a.pdfParse) <;>
    by_cases h1 : isMeaningful (runAdapter a.visionPdf) <;>
    by_cases h2 : isMeaningful (runAdapter a.openaiOcr) <;>
    by_cases h3 : isMeaningful (runAdapter a.geminiOcr) <;>
    by_cases h4 : isMeaningful (runAdapter a.images) <;>
    (refine ⟨by simp [autoChain, adapterList, h0, h1, h2, h3, h4] <;>
      (split <;> simp), ?_⟩) <;>
    (intro j hj
     interval_cases j <;>
       simp [autoChain, adapterList, h0, h1, h2, h3, h4])

/-- C4 witness: with only the third adapter meaningful, the chain stops
there, the fourth adapter is not invoked and the returned text is the third
result. -/
theorem autoChain_spec_witness :
    ((autoChain exCascadeAdapters).1 = String.mk (List.replicate 30 'a')) ∧
    (2 < (autoChain exCascadeAdapters).2 ↔ True) := by
  constructor
  · rw [(autoChain_spec exCascadeAdapters).1]
    decide
  · rw [(autoChain_spec exCascadeAdapters).2 2 (by decide)]
    decide

/-- C3: guaranteed naming-context reset. In every execution of the
process-quiz handler in which the shared naming context was populated, and in
every execution that starts from the neutral context, the final value of
CURRENT_OCR_CTX is the neutral default, including the executions that end in
an error response after the populate step. -/
theorem processQuiz_ctx_reset (ctx0 : OcrCtx) (inp : ProcessInput) :
    ((processQuiz ctx0 inp).2.1.isSome = true →
      (processQuiz ctx0 inp).1 = neutralCtx) ∧
    (ctx0 = neutralCtx → (processQuiz ctx0 inp).1 = neutralCtx) := by
  unfold processQuiz
  cases hq : inp.quiz with
  | none =>
    constructor
    · intro h; simp at h
    · intro h; simpa using h
  | some q =>
    by_cases hd : inp.downloadOk <;> by_cases hw : inp.writeOk <;>
      by_cases hu : inp.updateOk <;> by_cases hl : inp.unlinkOk <;>
      constructor <;> intro h <;>
      simp_all [neutralCtx]

/-- C3 witness: a populated run whose database update fails still ends with
the neutral context. -/
theorem processQuiz_ctx_reset_witness :
    ((processQuiz exDirtyCtx exProcessInput).2.1.isSome = true) ∧
    (processQuiz exDirtyCtx exProcessInput).1 = neutralCtx := by
  refine ⟨by decide, ?_⟩
  exact (processQuiz_ctx_reset exDirtyCtx exProcessInput).1 (by decide)

private theorem normalizeIndices_invariant (idx : List Int) (pc : Nat) :
    (normalizeIndices idx pc).Nodup ∧
    (normalizeIndices idx pc).Sorted (· ≤ ·) ∧
    ∀ x ∈ normalizeIndices idx pc, x < pc := by
  unfold normalizeIndices
  refine ⟨?_, ?_, ?_⟩
  · exact (List.perm_insertionSort _ _).nodup_iff.mpr (List.nodup_dedup _)
  · exact List.sorted_insertionSort _ _
  · intro x hx
    have hx2 := ((List.perm_insertionSort _ _).mem_iff).mp hx
    rw [List.mem_dedup] at hx2
    obtain ⟨v, hv, rfl⟩ := List.mem_map.mp hx2
    have hfil := List.of_mem_filter hv
    have hprop : 0 ≤ v ∧ v < (pc : Int) := of_decide_eq_true hfil
    omega

/-- C8: page-list invariant. For every page count, roster and optional page
texts, every page-index list produced by mapPagesToStudents — through the
explicit-indices path, the header-inference path with spillover, or the
even-split fallback — is duplicate-free, sorted ascending and confined to
the interval [0, pageCount). -/
theorem mapPagesToStudents_invariant (pageCount : Nat) (students : List PMStudent)
    (texts : Option (List String)) :
    ∀ l ∈ mapPagesToStudents pageCount students texts,
      l.Nodup ∧ l.Sorted (· ≤ ·) ∧ ∀ x ∈ l, x < pageCount := by
  intro l hl
  have key : ∃ src, l = normalizeIndices src pageCount := by
    simp only [mapPagesToStudents] at hl
    split at hl
    · exact absurd hl (by simp)
    · split at hl
      · obtain ⟨s, _, hs⟩ := List.mem_map.mp hl
        exact ⟨_, hs.symm⟩
      · split at hl
        · split at hl
          · obtain ⟨blk, _, hb⟩ := List.mem_map.mp hl
            exact ⟨_, hb.symm⟩
          · split at hl
            · rcases List.mem_append.mp hl with hmem | hmem
              · obtain ⟨blk, _, hb⟩ := List.mem_map.mp hmem
                exact ⟨_, hb.symm⟩
              · obtain ⟨c, _, hc⟩ := List.mem_map.mp hmem
                exact ⟨_, hc.symm⟩
            · obtain ⟨blk, _, hb⟩ := List.mem_map.mp hl
              exact ⟨_, hb.symm⟩
        · obtain ⟨i, _, hi⟩ := List.mem_map.mp hl
          exact ⟨_, hi.symm⟩
  obtain ⟨src, rfl⟩ := key
  exact normalizeIndices_invariant src pageCount

/-- C8 witness: a concrete roster with messy explicit indices yields the
normalized list 0, 2, which satisfies the invariant for pageCount = 3. -/
theorem mapPagesToStudents_invariant_witness :
    ([0, 2] : List Nat).Nodup ∧ ([0, 2] : List Nat).Sorted (· ≤ ·) ∧
      ∀ x ∈ ([0, 2] : List Nat), x < 3 :=
  mapPagesToStudents_invariant 3 [{ page_indices := some [2, 0, 2, 5] }] none
    [0, 2] (by decide)

/-- C1 counterexample: for the Scenario C input — a two-page document whose
first page text carries the injected Name:/Roll: header and whose second page
carries none, with two graded students without precomputed page indices —
mapPagesToStudents returns the page lists [0, 1] and [], not [0] and [1] as
the claim states: the single inferred block extends to the document end, so
no uncovered page is left to spill over to student 2. -/
theorem scenarioC_counterexample :
    mapPagesToStudents 2 [{ page_indices := none }, { page_indices := none }]
      (some ["Name: Jane\nRoll: 12\n----", "no header here"]) = [[0, 1], []] ∧
    mapPagesToStudents 2 [{ page_indices := none }, { page_indices := none }]
      (some ["Name: Jane\nRoll: 12\n----", "no header here"]) ≠ [[0], [1]] := by
  decide

/-- C1 amended: for every two-page document whose first page text contains
both name: and roll: (case-insensitively) and whose second page does not,
and every roster of two students without precomputed page indices, header
inference marks only page 0 as a block start, the single block extends to the
document end, student 1 receives the page list [0, 1] and student 2 receives
the empty list (no uncovered pages remain for the spillover rule). -/
theorem scenarioC_amended (t0 t1 : String) (s1 s2 : PMStudent)
    (h0 : pageHasHeader t0 = true) (h1 : pageHasHeader t1 = false)
    (hs1 : s1.page_indices = none) (_hs2 : s2.page_indices = none) :
    mapPagesToStudents 2 [s1, s2] (some [t0, t1]) = [[0, 1], []] := by
  have hinfer : inferByPageTexts (some [t0, t1]) 2 = [[0, 1]] := by
    have h2 : List.range 2 = [0, 1] := by decide
    have h3 : List.range' 0 2 = [0, 1] := by decide
    simp [inferByPageTexts, h2, h3, h0, h1, buildRanges]
  simp [mapPagesToStudents, hs1, hinfer]
  decide

/-- C1 witness: a concrete instance of the amended Scenario C claim. -/
theorem scenarioC_amended_witness :
    mapPagesToStudents 2 [{ page_indices := none }, { page_indices := none }]
      (some ["Name: Alice\nRoll: 7\n----", "second page text"]) = [[0, 1], []] :=
  scenarioC_amended "Name: Alice\nRoll: 7\n----" "second page text"
    { page_indices := none } { page_indices := none }
    (by decide) (by decide) rfl rfl

private theorem isPrefixOf_append_self (a b : List Char) :
    a.isPrefixOf (a ++ b) = true := by
  induction a with
  | nil => simp [List.isPrefixOf]
  | cons c cs ih => simp [List.isPrefixOf, ih]

private theorem dropWhile_append_of_exists (p : Char → Bool) :
    ∀ (a b : List Char), (∃ x ∈ a, p x = false) →
      (a ++ b).dropWhile p = a.dropWhile p ++ b := by
  intro a
  induction a with
  | nil => intro b h; simp at h
  | cons c cs ih =>
    intro b h
    by_cases hc : p c
    · obtain ⟨x, hx, hpx⟩ := h
      have hxcs : x ∈ cs := by
        rcases List.mem_cons.mp hx with rfl | h2
        · rw [hc] at hpx; exact absurd hpx (by simp)
        · exact h2
      simp [List.dropWhile_cons, hc, ih b ⟨x, hxcs, hpx⟩]
    · simp [List.dropWhile_cons, hc]

private theorem stripEdgeUnderscores_cons_append (c0 : Char) (rest suf : List Char)
    (h0 : ¬ c0 = '_') (hsuf : ∃ x ∈ suf, ¬ x = '_') :
    stripEdgeUnderscores ((c0 :: rest) ++ suf) =
      (c0 :: rest) ++ (suf.reverse.dropWhile (· = '_')).reverse := by
  unfold stripEdgeUnderscores
  have h1 : ((c0 :: rest) ++ suf).dropWhile (· = '_') = (c0 :: rest) ++ suf := by
    simp [List.dropWhile_cons, h0]
  rw [h1, List.reverse_append]
  obtain ⟨x, hx, hpx⟩ := hsuf
  have hrev : ∃ x ∈ suf.reverse, (fun c => decide (c = '_')) x = false :=
    ⟨x, List.mem_reverse.mpr hx, decide_eq_false hpx⟩
  rw [dropWhile_append_of_exists _ _ _ hrev, List.reverse_append, List.reverse_reverse]

private theorem str_eq_empty_iff (s : String) : s = "" ↔ s.data = [] := by
  constructor
  · intro h; rw [h]
  · intro h
    cases s with
    | mk data =>
      simp only at h
      rw [h]

private theorem claimSolutionForm_data (title sec : Option String) :
    (claimSolutionForm title sec).data =
      "solution_paper_".data ++ sentinelSuffix title sec := by
  unfold claimSolutionForm sentinelSuffix
  by_cases h : slugify (sec.getD "") = ""
  · have hd : (slugify (sec.getD "")).data = [] := (str_eq_empty_iff _).mp h
    simp [h, hd, String.data_append]
  · have hd : ¬ (slugify (sec.getD "")).data = [] :=
      fun hc => h ((str_eq_empty_iff _).mpr hc)
    simp [h, hd, String.data_append]

private theorem claimUnknownForm_data (title sec : Option String) :
    (claimUnknownForm title sec).data =
      "unknown_".data ++ sentinelSuffix title sec := by
  unfold claimUnknownForm sentinelSuffix
  by_cases h : slugify (sec.getD "") = ""
  · have hd : (slugify (sec.getD "")).data = [] := (str_eq_empty_iff _).mp h
    simp [h, hd, String.data_append]
  · have hd : ¬ (slugify (sec.getD "")).data = [] :=
      fun hc => h ((str_eq_empty_iff _).mpr hc)
    simp [h, hd, String.data_append]

/-- C2 counterexample: with an empty title and section, the producer emits
the sentinels unknown and solution_paper — the trailing underscore of the
claimed forms unknown_ and solution_paper_ is stripped — and the
page-selection solution-detection prefix test recognizes neither. -/
theorem sentinel_protocol_counterexample :
    unknownName none none = "unknown" ∧
    solutionName none none = "solution_paper" ∧
    claimUnknownForm none none = "unknown_" ∧
    unknownName none none ≠ claimUnknownForm none none ∧
    sbawNameMatches (some (unknownName none none)) = false ∧
    sbawNameMatches (some (solutionName none none)) = false := by
  decide

/-- C2 amended: the emitted sentinels equal the claimed forms
solution_paper_<slug(title)>[_<slug(section)>] and
unknown_<slug(title)>[_<slug(section)>] with leading and trailing underscore
runs stripped; whenever the combined slug suffix contains a character other
than underscore, both emitted sentinels are recognized by the selection
heuristic's case-insensitive prefix test. -/
theorem sentinel_protocol_amended (title sec : Option String) :
    solutionName title sec =
      String.mk (stripEdgeUnderscores (claimSolutionForm title sec).data) ∧
    unknownName title sec =
      String.mk (stripEdgeUnderscores (claimUnknownForm title sec).data) ∧
    ((∃ c ∈ sentinelSuffix title sec, ¬ c = '_') →
      sbawNameMatches (some (solutionName title sec)) = true ∧
      sbawNameMatches (some (unknownName title sec)) = true) := by
  refine ⟨?_, ?_, ?_⟩
  · rw [claimSolutionForm_data]
    rfl
  · rw [claimUnknownForm_data]
    rfl
  · intro h
    have hsol : (solutionName title sec).data =
        "solution_paper_".data ++
          ((sentinelSuffix title sec).reverse.dropWhile (· = '_')).reverse := by
      show (stripEdgeUnderscores ("solution_paper_".data ++ sentinelSuffix title sec)) = _
      have hlit : "solution_paper_".data =
          's' :: "olution_paper_".data := rfl
      rw [hlit, stripEdgeUnderscores_cons_append 's' _ _ (by decide) h]
    have hunk : (unknownName title sec).data =
        "unknown_".data ++
          ((sentinelSuffix title sec).reverse.dropWhile (· = '_')).reverse := by
      show (stripEdgeUnderscores ("unknown_".data ++ sentinelSuffix title sec)) = _
      have hlit : "unknown_".data = 'u' :: "nknown_".data := rfl
      rw [hlit, stripEdgeUnderscores_cons_append 'u' _ _ (by decide) h]
    constructor
    · show (_ || _) = true
      apply Bool.or_eq_true_iff.mpr
      right
      show "solution_paper_".data.isPrefixOf
        (lowerL ((some (solutionName title sec)).getD "").data) = true
      have : (some (solutionName title sec)).getD "" = solutionName title sec := rfl
      rw [this, hsol]
      unfold lowerL
      rw [List.map_append]
      have hfix : "solution_paper_".data.map lcChar = "solution_paper_".data := by decide
      rw [hfix]
      exact isPrefixOf_append_self _ _
    · show (_ || _) = true
      apply Bool.or_eq_true_iff.mpr
      left
      show "unknown_".data.isPrefixOf
        (lowerL ((some (unknownName title sec)).getD "").data) = true
      have : (some (unknownName title sec)).getD "" = unknownName title sec := rfl
      rw [this, hunk]
      unfold lowerL
      rw [List.map_append]
      have hfix : "unknown_".data.map lcChar = "unknown_".data := by decide
      rw [hfix]
      exact isPrefixOf_append_self _ _

/-- C2 witness: with title Quiz 1 and no section the producer emits
recognized sentinels. -/
theorem sentinel_protocol_amended_witness :
    (∃ c ∈ sentinelSuffix (some "Quiz 1") none, ¬ c = '_') ∧
    (sbawNameMatches (some (solutionName (some "Quiz 1") none)) = true ∧
     sbawNameMatches (some (unknownName (some "Quiz 1") none)) = true) :=
  ⟨⟨'q', by decide, by decide⟩,
    (sentinel_protocol_amended (some "Quiz 1") none).2.2 ⟨'q', by decide, by decide⟩⟩

private theorem mem_flushWsRun (P : Char → Bool) (hsp : P ' ' = true)
    (run : List Char) (hrun : ∀ c ∈ run, P c = true) :
    ∀ c ∈ flushWsRun run, P c = true := by
  intro c hc
  unfold flushWsRun at hc
  split at hc
  · simp at hc
    rw [hc]
    exact hsp
  · exact hrun c (List.mem_reverse.mp hc)

private theorem mem_collapseWs2Aux (P : Char → Bool) (hsp : P ' ' = true) :
    ∀ (l run : List Char), (∀ c ∈ l, P c = true) → (∀ c ∈ run, P c = true) →
      ∀ c ∈ collapseWs2Aux run l, P c = true := by
  intro l
  induction l with
  | nil => intro run _ hr c hc; exact mem_flushWsRun P hsp run hr c hc
  | cons a as ih =>
    intro run hl hr c hc
    simp only [collapseWs2Aux] at hc
    by_cases ha : jsWs a
    · rw [if_pos ha] at hc
      refine ih (a :: run) (fun y hy => hl y (List.mem_cons_of_mem a hy)) ?_ c hc
      intro y hy
      rcases List.mem_cons.mp hy with rfl | h2
      · exact hl y (List.mem_cons_self _ _)
      · exact hr y h2
    · rw [if_neg ha] at hc
      rcases List.mem_append.mp hc with h1 | h1
      · exact mem_flushWsRun P hsp run hr c h1
      · rcases List.mem_cons.mp h1 with rfl | h2
        · exact hl c (List.mem_cons_self _ _)
        · exact ih [] (fun y hy => hl y (List.mem_cons_of_mem a hy)) (by simp) c h2

private theorem mem_flushNlRun (k : Nat) : ∀ c ∈ flushNlRun k, c = '\n' := by
  intro c hc
  unfold flushNlRun at hc
  split at hc
  · simp at hc
    exact hc
  · exact List.eq_of_mem_replicate hc

private theorem mem_collapseNl3Aux (P : Char → Bool) (hnl : P '\n' = true) :
    ∀ (l : List Char) (k : Nat), (∀ c ∈ l, P c = true) →
      ∀ c ∈ collapseNl3Aux k l, P c = true := by
  intro l
  induction l with
  | nil =>
    intro k _ c hc
    rw [mem_flushNlRun k c hc]
    exact hnl
  | cons a as ih =>
    intro k hl c hc
    simp only [collapseNl3Aux] at hc
    by_cases ha : isNl a
    · rw [if_pos ha] at hc
      exact ih (k + 1) (fun y hy => hl y (List.mem_cons_of_mem a hy)) c hc
    · rw [if_neg ha] at hc
      rcases List.mem_append.mp hc with h1 | h1
      · rw [mem_flushNlRun k c h1]
        exact hnl
      · rcases List.mem_cons.mp h1 with rfl | h2
        · exact hl c (List.mem_cons_self _ _)
        · exact ih 0 (fun y hy => hl y (List.mem_cons_of_mem a hy)) c h2

private theorem trimL_subset (l : List Char) : ∀ c ∈ trimL l, c ∈ l := by
  intro c hc
  unfold trimL at hc
  rw [List.mem_reverse] at hc
  have h1 : c ∈ (l.dropWhile jsWs).reverse :=
    (List.dropWhile_suffix jsWs).sublist.subset hc
  rw [List.mem_reverse] at h1
  exact (List.dropWhile_suffix jsWs).sublist.subset h1

private theorem collapseWs2Aux_id : ∀ (l : List Char),
    l.Chain' (fun a b => ¬ (jsWs a = true ∧ jsWs b = true)) →
    (collapseWs2Aux [] l = l ∧
      (∀ x, jsWs x = true → (∀ d, l.head? = some d → jsWs d = false) →
        collapseWs2Aux [x] l = x :: l)) := by
  intro l
  induction l with
  | nil =>
    intro _
    refine ⟨rfl, ?_⟩
    intro x _ _
    simp [collapseWs2Aux, flushWsRun]
  | cons e es ih =>
    intro h
    obtain ⟨ih1, ih2⟩ := ih h.tail
    constructor
    · by_cases he : jsWs e
      · have hhead : ∀ d, es.head? = some d → jsWs d = false := by
          intro d hd
          cases es with
          | nil => simp at hd
          | cons f fs =>
            have hr := (List.chain'_cons.mp h).1
            simp at hd
            rw [← hd]
            by_cases hf : jsWs f
            · exact absurd ⟨he, hf⟩ hr
            · simpa using hf
        simp only [collapseWs2Aux, if_pos he]
        exact ih2 e he hhead
      · simp only [collapseWs2Aux, if_neg he, flushWsRun]
        simp [ih1]
    · intro x hx hhead
      have he : jsWs e = false := hhead e rfl
      simp only [collapseWs2Aux, he, Bool.false_eq_true, if_false, flushWsRun]
      simp [ih1]

private theorem isNl_ws {c : Char} (h : isNl c = true) : jsWs c = true := by
  have : c = '\n' := by simpa [isNl] using h
  rw [this]
  decide

private theorem collapseNl3Aux_id : ∀ (l : List Char),
    l.Chain' (fun a b => ¬ (jsWs a = true ∧ jsWs b = true)) →
    (collapseNl3Aux 0 l = l ∧
      ((∀ d, l.head? = some d → isNl d = false) →
        collapseNl3Aux 1 l = '\n' :: l)) := by
  intro l
  induction l with
  | nil =>
    intro _
    refine ⟨rfl, ?_⟩
    intro _
    simp [collapseNl3Aux, flushNlRun]
  | cons e es ih =>
    intro h
    obtain ⟨ih1, ih2⟩ := ih h.tail
    constructor
    · by_cases he : isNl e
      · have hhead : ∀ d, es.head? = some d → isNl d = false := by
          intro d hd
          cases es with
          | nil => simp at hd
          | cons f fs =>
            have hr := (List.chain'_cons.mp h).1
            simp at hd
            rw [← hd]
            by_cases hf : isNl f
            · exact absurd ⟨isNl_ws he, isNl_ws hf⟩ hr
            · simpa using hf
        simp only [collapseNl3Aux, if_pos he]
        have := ih2 hhead
        rw [this]
        have : e = '\n' := by simpa [isNl] using he
        rw [this]
      · simp only [collapseNl3Aux, if_neg he, flushNlRun]
        simp [ih1]
    · intro hhead
      have he : isNl e = false := hhead e rfl
      simp only [collapseNl3Aux, he, Bool.false_eq_true, if_false, flushNlRun]
      simp [ih1]

private theorem dropWhile_eq_self_of_head (p : Char → Bool) (l : List Char)
    (h : ∀ c, l.head? = some c → p c = false) : l.dropWhile p = l := by
  cases l with
  | nil => rfl
  | cons c cs => simp [List.dropWhile_cons, h c rfl]

private theorem trimL_eq_self (l : List Char)
    (hh : ∀ c, l.head? = some c → jsWs c = false)
    (hl : ∀ c, l.getLast? = some c → jsWs c = false) : trimL l = l := by
  unfold trimL
  rw [dropWhile_eq_self_of_head jsWs l hh]
  rw [dropWhile_eq_self_of_head jsWs l.reverse
    (fun c hc => hl c (by rwa [List.head?_reverse] at hc))]
  exact List.reverse_reverse l

private theorem mk_data (s : String) : String.mk s.data = s := by
  cases s
  rfl

/-- C9 counterexample: the raw text ab, two newlines, cd is already inside
the printable-ASCII-plus-newline range and contains a newline separating two
lines, yet the persisted text ab cd contains no newline at all: the
whitespace collapse replaces the newline run with one space. -/
theorem cleanExtractedText_counterexample :
    cleanExtractedText "ab\n\ncd" = "ab cd" ∧
    (∀ c ∈ "ab\n\ncd".data, keepPrintable c = true) ∧
    '\n' ∈ "ab\n\ncd".data ∧
    '\n' ∉ (cleanExtractedText "ab\n\ncd").data := by
  decide

/-- C9 amended: the persisted text never contains a character outside the
printable-ASCII-plus-newline range; and the sanitize step preserves newlines
only when they are isolated — on a text already confined to the safe range,
with no two adjacent whitespace characters and no leading or trailing
whitespace, cleanExtractedText is the identity, so every such newline
survives, while a newline inside a run of two or more whitespace characters
is collapsed into a single space. -/
theorem cleanExtractedText_amended :
    (∀ (s : String), ∀ c ∈ (cleanExtractedText s).data, keepPrintable c = true) ∧
    (∀ (s : String),
      (∀ c ∈ s.data, keepPrintable c = true) →
      s.data.Chain' (fun a b => ¬ (jsWs a = true ∧ jsWs b = true)) →
      (∀ c, s.data.head? = some c → jsWs c = false) →
      (∀ c, s.data.getLast? = some c → jsWs c = false) →
      cleanExtractedText s = s) := by
  constructor
  · intro s c hc
    have hc1 : c ∈ collapseNl3 (collapseWs2 (s.data.filter keepPrintable)) :=
      trimL_subset _ c hc
    have hws : ∀ x ∈ collapseWs2 (s.data.filter keepPrintable),
        keepPrintable x = true := by
      intro x hx
      exact mem_collapseWs2Aux keepPrintable (by decide) _ []
        (fun y hy => List.of_mem_filter hy) (by simp) x hx
    exact mem_collapseNl3Aux keepPrintable (by decide) _ 0 hws c hc1
  · intro s hchars hchain hh hl
    show String.mk (trimL (collapseNl3 (collapseWs2 (s.data.filter keepPrintable)))) = s
    rw [List.filter_eq_self.mpr hchars]
    show String.mk (trimL (collapseNl3Aux 0 (collapseWs2Aux [] s.data))) = s
    rw [(collapseWs2Aux_id s.data hchain).1]
    rw [(collapseNl3Aux_id s.data hchain).1]
    rw [trimL_eq_self s.data hh hl]

/-- C9 witness: a clean two-line text is persisted unchanged, its newline
included. -/
theorem cleanExtractedText_amended_witness :
    cleanExtractedText "ab\ncd" = "ab\ncd" :=
  (cleanExtractedText_amended).2 "ab\ncd" (by decide)
    (by
      show List.Chain' _ ['a', 'b', '\n', 'c', 'd']
      simp only [List.chain'_cons, List.chain'_singleton, and_true]
      refine ⟨?_, ?_, ?_, ?_⟩ <;> decide)
    (by decide) (by decide)

private theorem transformQ_props (q0 : GQuestion) :
    ((transformQ q0).subparts.getD [] = [] →
      (transformQ q0).marks = some (numOr0 (transformQ q0).max_marks)) ∧
    ((transformQ q0).subparts.getD [] ≠ [] →
      (transformQ q0).marks =
        some ((((transformQ q0).subparts.getD []).map
          (fun sp => numOr0 sp.max_marks)).sum)) ∧
    (∀ sp ∈ (transformQ q0).subparts.getD [],
      sp.marks = some (numOr0 sp.max_marks) ∧
      ∃ r, sp.remarks = some (appendNote r "Solution key (full marks)")) ∧
    (∃ r, (transformQ q0).remarks = some (appendNote r "Solution key (full marks)")) := by
  cases hsub : q0.subparts with
  | none =>
    refine ⟨?_, ?_, ?_, ?_⟩ <;> simp [transformQ, hsub]
    exact ⟨q0.remarks, rfl⟩
  | some sps =>
    cases sps with
    | nil =>
      refine ⟨?_, ?_, ?_, ?_⟩ <;> simp [transformQ, hsub]
      exact ⟨q0.remarks, rfl⟩
    | cons sp0 sps' =>
      have hlen : 0 < (sp0 :: sps').length := by simp
      refine ⟨?_, ?_, ?_, ?_⟩
      · intro hemp
        simp [transformQ, hsub] at hemp
      · intro _
        simp only [transformQ, hsub, if_pos hlen]
        simp only [Option.getD_some, List.map_map]
        congr 1
      · intro sp hsp
        simp only [transformQ, hsub, if_pos hlen, Option.getD_some] at hsp
        obtain ⟨sp1, _, rfl⟩ := List.mem_map.mp hsp
        exact ⟨rfl, sp1.remarks, rfl⟩
      · simp only [transformQ, hsub, if_pos hlen]
        exact ⟨q0.remarks, rfl⟩

/-- C10 counterexample: on a record with one question of max_marks 10 whose
single subpart has max_marks 3, forceSolutionFullMarks sets the question's
awarded marks to 3 — the sum of subpart maxima — not to the question's own
max_marks 10, so the claim that every question's awarded marks equal its
max_marks fails. -/
theorem forceSolutionFullMarks_counterexample :
    (((forceSolutionFullMarks exSolutionStudent).questions.getD []).map
      (fun q => q.marks)) = [some 3] ∧
    (((forceSolutionFullMarks exSolutionStudent).questions.getD []).map
      (fun q => q.max_marks)) = [some 10] ∧
    ¬ (∀ q ∈ (forceSolutionFullMarks exSolutionStudent).questions.getD [],
        q.marks = some (numOr0 q.max_marks)) := by
  decide

/-- C10 amended: with the solution-key option on and a nonempty parsed array,
the first record is rewritten before persistence: its student name becomes
the prior trimmed name repeated twice with a space; every subpart's awarded
marks are set to that subpart's max_marks; a question without subparts gets
its own max_marks as awarded marks, while a question with subparts gets the
sum of its subparts' maxima, which may differ from the question's own
max_marks; the total score is the sum of the questions' awarded marks; and
the solution-key notes are appended to every remarks field. -/
theorem forceSolutionFullMarks_amended (first : GStudent) (s : String)
    (hname : first.student_name = some s) (hne : s ≠ "")
    (hh : ∀ c, s.data.head? = some c → jsWs c = false)
    (hl : ∀ c, s.data.getLast? = some c → jsWs c = false) :
    (∀ rest : List GStudent,
      applySolutionKey true (some (first :: rest)) =
        some (forceSolutionFullMarks first :: rest)) ∧
    (forceSolutionFullMarks first).student_name = some (s ++ " " ++ s) ∧
    (∀ q ∈ (forceSolutionFullMarks first).questions.getD [],
      (q.subparts.getD [] = [] → q.marks = some (numOr0 q.max_marks)) ∧
      (q.subparts.getD [] ≠ [] →
        q.marks = some (((q.subparts.getD []).map
          (fun sp => numOr0 sp.max_marks)).sum)) ∧
      (∀ sp ∈ q.subparts.getD [], sp.marks = some (numOr0 sp.max_marks) ∧
        ∃ r, sp.remarks = some (appendNote r "Solution key (full marks)")) ∧
      (∃ r, q.remarks = some (appendNote r "Solution key (full marks)"))) ∧
    (forceSolutionFullMarks first).total_score =
      some ((((forceSolutionFullMarks first).questions.getD []).map
        (fun q => numOr0 q.marks)).sum) ∧
    (forceSolutionFullMarks first).remarks =
      some (appendNote first.remarks "Solution paper (awarded full marks).") := by
  have hdata : s.data ≠ [] := fun hc => hne ((str_eq_empty_iff s).mpr hc)
  have hbase : solutionBaseName first.student_name = s := by
    rw [hname]
    unfold solutionBaseName
    simp only [if_neg hne]
    rw [trimL_eq_self s.data hh hl]
  have hq : (forceSolutionFullMarks first).questions.getD [] =
      (first.questions.getD []).map transformQ := by
    cases hfq : first.questions <;> simp [forceSolutionFullMarks, hfq]
  refine ⟨?_, ?_, ?_, ?_, ?_⟩
  · intro rest
    rfl
  · show some (String.mk (trimL (solutionBaseName first.student_name ++ " " ++
      solutionBaseName first.student_name).data)) = some (s ++ " " ++ s)
    rw [hbase]
    have hd : (s ++ " " ++ s).data = (s.data ++ [' ']) ++ s.data := by
      rw [String.data_append, String.data_append]
    rw [hd]
    have htr : trimL ((s.data ++ [' ']) ++ s.data) = (s.data ++ [' ']) ++ s.data := by
      apply trimL_eq_self
      · intro c hc
        cases hds : s.data with
        | nil => exact absurd hds hdata
        | cons a as =>
          rw [hds] at hc
          simp only [List.cons_append, List.head?_cons, Option.some.injEq] at hc
          rw [← hc]
          exact hh a (by rw [hds]; rfl)
      · intro c hc
        rw [← List.head?_reverse] at hc
        rw [List.reverse_append, List.reverse_append] at hc
        cases hds : s.data.reverse with
        | nil =>
          rw [hds] at hc
          simp at hc
          have : s.data = [] := by
            have := congrArg List.reverse hds
            simpa using this
          exact absurd this hdata
        | cons d ds =>
          rw [hds] at hc
          simp only [List.cons_append, List.head?_cons, Option.some.injEq] at hc
          rw [← hc]
          apply hl
          rw [← List.head?_reverse, hds]
          rfl
    rw [htr]
    congr 1
  · intro q hqmem
    rw [hq] at hqmem
    obtain ⟨q0, _, rfl⟩ := List.mem_map.mp hqmem
    exact transformQ_props q0
  · show some (((( first.questions.getD []).map transformQ).map
      (fun q => numOr0 q.marks)).sum) = _
    rw [hq]
  · rfl

/-- C10 witness: the amended claim evaluated on the sample record with the
name Sol: the rewritten name is Sol Sol and the top-level note is set. -/
theorem forceSolutionFullMarks_amended_witness :
    (forceSolutionFullMarks exSolutionStudent).student_name =
      some ("Sol" ++ " " ++ "Sol") ∧
    (forceSolutionFullMarks exSolutionStudent).remarks =
      some (appendNote none "Solution paper (awarded full marks).") :=
  ⟨(forceSolutionFullMarks_amended exSolutionStudent "Sol" rfl (by decide)
      (by decide) (by decide)).2.1,
   (forceSolutionFullMarks_amended exSolutionStudent "Sol" rfl (by decide)
      (by decide) (by decide)).2.2.2.2⟩
